import Mathlib

/-!
Verification of the per-thread Redis proxy connection pool
(`source/extensions/filters/network/redis_proxy/conn_pool_impl.cc`).

The pool state and its operations are embedded as pure Lean functions:
the `std::unordered_map`s become association lists, the external
collaborators (load balancer, client factory, network-address
constructors) become an `Externals` record of oracle functions, and the
observable side effects that the claims talk about (close-observer
firings, deferred deletions, factory invocations) become instrumentation
fields of the state.
-/

namespace RedisConnPool

/-- The character constants used by the hashtag extractor; written via
`Char.ofNat` (123 and 125 are the code points of the opening and closing
curly brace). -/
def lbrace : Char := Char.ofNat 123

def rbrace : Char := Char.ofNat 125

/-- The colon character (code point 58), the `host:port` separator. -/
def colonChar : Char := Char.ofNat 58

/-- Index of the first occurrence of `c` in `cs`, as
`absl::string_view::find(c)` computes it. -/
def firstIdxOf (cs : List Char) (c : Char) : Option Nat :=
  match cs with
  | [] => none
  | x :: xs => if x = c then some 0 else (firstIdxOf xs c).map (· + 1)

/-- Index of the last occurrence of `c` in `cs`, as
`std::string::rfind(c)` computes it. -/
def lastIdxOf (cs : List Char) (c : Char) : Option Nat :=
  match cs with
  | [] => none
  | x :: xs =>
    match lastIdxOf xs c with
    | some j => some (j + 1)
    | none => if x = c then some 0 else none

/-- `InstanceImpl::LbContextImpl::hashtag`: if hashtagging is disabled the
key is returned unchanged; otherwise the first brace-delimited tag is
extracted, with the whole key returned when there is no opening brace, no
closing brace at or after it, or the tag is empty. -/
def hashtag (v : String) (enabled : Bool) : String :=
  if !enabled then v
  else
    match firstIdxOf v.data lbrace with
    | none => v
    | some start =>
      match firstIdxOf (v.data.drop start) rbrace with
      | none => v
      | some off =>
        if start + off = start + 1 then v
        else String.mk (((v.data.drop (start + 1)).take (start + off - start - 1)))

example : hashtag "\x7buser1000\x7d.following" true = "user1000" := by decide
example : hashtag "foo\x7b\x7d.bar" true = "foo\x7b\x7d.bar" := by decide
example : hashtag "nobraces" true = "nobraces" := by decide
example : hashtag "anything" false = "anything" := by decide
example : hashtag "a\x7bbc\x7dd" true = "bc" := by decide

/-- `absl::SimpleAtoi` on an unsigned integer, restricted to the plain
decimal representations that occur in `host:port` strings: a non-empty
string of decimal digits parses to its value, everything else fails. -/
def simpleAtoi (s : String) : Option Nat :=
  if s.data = [] then none
  else if s.data.all (fun c => c.isDigit) then
    some (s.data.foldl (fun n c => n * 10 + (c.toNat - 48)) 0)
  else none

example : simpleAtoi "6379" = some 6379 := by decide
example : simpleAtoi "99999" = some 99999 := by decide
example : simpleAtoi "" = none := by decide
example : simpleAtoi "12a" = none := by decide

/-- `envoy::api::v2::core::HealthStatus` values relevant to the pool. -/
inductive HealthStatus where
  | Unknown
  | Healthy
  | Unhealthy
  deriving DecidableEq, Repr

/-- `Upstream::Host`: one upstream instance.  `id` stands for the C++
object identity of the `HostSharedPtr` (distinct allocations get distinct
ids); `address` is `host->address()->asString()`.  `synthetic` marks the
pool-owned hosts built inside `makeRequestToHost`. -/
structure Host where
  id : Nat
  address : String
  weight : Nat
  health : HealthStatus
  hasMetadata : Bool
  synthetic : Bool
  deriving DecidableEq, Repr

/-- A `ThreadLocalActiveClient` together with the `redis_client_` it owns;
`id` stands for the object identity of the underlying client. -/
structure Client where
  id : Nat
  deriving DecidableEq, Repr

/-- A `ThreadLocalCluster` snapshot: its name and the flattened host list
of `prioritySet().hostSetsPerPriority()`. -/
structure Group where
  name : String
  hosts : List Host
  deriving DecidableEq, Repr

/-- `client_map_` as an association list keyed by host identity. -/
abbrev ClientMap := List (Host × Client)

/-- `host_address_map_` as an association list keyed by address string. -/
abbrev AddressMap := List (String × Host)

def lookupHost (h : Host) (m : ClientMap) : Option Client :=
  match m with
  | [] => none
  | (h', c) :: rest => if h' = h then some c else lookupHost h rest

def eraseHost (h : Host) (m : ClientMap) : ClientMap :=
  m.filter (fun p => !(p.1 = h : Bool))

def lookupStr (k : String) (m : AddressMap) : Option Host :=
  match m with
  | [] => none
  | (k', v) :: rest => if k' = k then some v else lookupStr k rest

def insertStr (k : String) (v : Host) (m : AddressMap) : AddressMap :=
  match m with
  | [] => [(k, v)]
  | (k', v') :: rest => if k' = k then (k, v) :: rest else (k', v') :: insertStr k v rest

def eraseStr (k : String) (m : AddressMap) : AddressMap :=
  m.filter (fun p => !(p.1 = k : Bool))

/-- The out-of-scope collaborators, as oracle functions: the cluster load
balancer (`chooseHost`, given the effective hash key and the hashtagging
flag per the spec's load-balancer contract) and the
`Network::Address::Ipv4Instance` / `Ipv6Instance` constructors, which
either fail (the C++ constructor throws) or produce the `asString()` form
of the constructed address. -/
structure Externals where
  chooseHost : String → Bool → Option Host
  mkIpv4 : String → Nat → Option String
  mkIpv6 : String → Nat → Option String

/-- The state of one `InstanceImpl::ThreadLocalPool`, with instrumentation.
`cluster_`, `client_map_`, `host_address_map_` and the presence bit of
`host_set_member_update_cb_handle_` mirror the C++ fields;
`cluster_name_` and `enable_hashtagging_` are the pool's immutable
configuration.  `closed_clients` records each firing of a connection-close
observer, `deferred_deletes` is the dispatcher's deferred-deletion queue,
`destroyed` the clients it has actually destroyed, and `factory_calls`
counts invocations of `client_factory_.create`. -/
structure PoolState where
  cluster_name_ : String
  enable_hashtagging_ : Bool
  cluster_ : Option Group
  client_map_ : ClientMap
  host_address_map_ : AddressMap
  host_set_member_update_cb_handle_ : Bool
  next_client_id : Nat
  next_host_id : Nat
  closed_clients : List Nat
  deferred_deletes : List Nat
  destroyed : List Nat
  factory_calls : Nat
  deriving DecidableEq, Repr

/-- The freshly constructed `ThreadLocalPool` (before the constructor's
optional immediate `onClusterAddOrUpdateNonVirtual`, which is a separate
step of the transition system). -/
def mkPool (name : String) (hashtagging : Bool) : PoolState :=
  { cluster_name_ := name
    enable_hashtagging_ := hashtagging
    cluster_ := none
    client_map_ := []
    host_address_map_ := []
    host_set_member_update_cb_handle_ := false
    next_client_id := 0
    next_host_id := 0
    closed_clients := []
    deferred_deletes := []
    destroyed := []
    factory_calls := 0 }

/-- `Network::ConnectionEvent`. -/
inductive ConnectionEvent where
  | Connected
  | RemoteClose
  | LocalClose
  deriving DecidableEq, Repr

/-- `ThreadLocalActiveClient::onEvent` for the client attached to host `h`:
on a close event it fires the close observer, hands `redis_client_` to
`dispatcher_.deferredDelete` and erases the entry from `client_map_`;
other events do nothing.  Since `Network::ConnectionImpl::close()` raises
`LocalClose` synchronously, the pool's own `redis_client_->close()` calls
are modelled directly by this function. -/
def onEvent (st : PoolState) (h : Host) (ev : ConnectionEvent) : PoolState :=
  match ev with
  | ConnectionEvent.Connected => st
  | _ =>
    match lookupHost h st.client_map_ with
    | none => st
    | some c =>
      { st with
        client_map_ := eraseHost h st.client_map_
        closed_clients := st.closed_clients ++ [c.id]
        deferred_deletes := st.deferred_deletes ++ [c.id] }

/-- The dispatcher running its deferred-deletion queue at the end of the
event-loop turn. -/
def runDeferred (st : PoolState) : PoolState :=
  { st with deferred_deletes := [], destroyed := st.destroyed ++ st.deferred_deletes }

/-- One iteration of `while (!client_map_.empty())
client_map_.begin()->second->redis_client_->close();`: close the first
client in the map (the close raises `LocalClose` into `onEvent`, which
erases the entry), with fuel bounding the iteration count. -/
def closeLoop (st : PoolState) : Nat → PoolState
  | 0 => st
  | n + 1 =>
    match st.client_map_ with
    | [] => st
    | (h, _) :: _ => closeLoop (onEvent st h ConnectionEvent.LocalClose) n

/-- The close-all-clients loop of `onClusterRemoval` (and of the pool's
destructor): every entry of `client_map_` is closed. -/
def closeAllClients (st : PoolState) : PoolState :=
  closeLoop st st.client_map_.length

/-- `ThreadLocalPool::onClusterRemoval`: ignored unless the name matches;
otherwise closes every client, then clears `cluster_`, the member-update
callback handle and `host_address_map_`. -/
def onClusterRemoval (st : PoolState) (cluster_name : String) : PoolState :=
  if cluster_name ≠ st.cluster_name_ then st
  else
    let st1 := closeAllClients st
    { st1 with
      cluster_ := none
      host_set_member_update_cb_handle_ := false
      host_address_map_ := [] }

/-- The `host_address_map_[host->address()->asString()] = host` loop of
`onClusterAddOrUpdateNonVirtual`, over the flattened host list. -/
def buildIndex : List Host → AddressMap → AddressMap
  | [], m => m
  | h :: hs, m => buildIndex hs (insertStr h.address h m)

/-- `ThreadLocalPool::onClusterAddOrUpdateNonVirtual`: ignored unless the
group's name matches; an update of an already-tracked group first runs
`onClusterRemoval` (update is remove-then-add); then the new group is
recorded, the member-update callback registered, and `host_address_map_`
rebuilt from the new host list. -/
def onClusterAddOrUpdateNonVirtual (st : PoolState) (g : Group) : PoolState :=
  if g.name ≠ st.cluster_name_ then st
  else
    let st1 := if st.cluster_.isSome then onClusterRemoval st st.cluster_name_ else st
    { st1 with
      cluster_ := some g
      host_set_member_update_cb_handle_ := true
      host_address_map_ := buildIndex g.hosts [] }

/-- `ThreadLocalPool::onHostsRemoved`: for each removed host, close its
client if it has one (closing erases the `client_map_` entry) and erase
its address from `host_address_map_`. -/
def onHostsRemoved (st : PoolState) (hosts_removed : List Host) : PoolState :=
  hosts_removed.foldl
    (fun st h =>
      let st1 :=
        match lookupHost h st.client_map_ with
        | some _ => onEvent st h ConnectionEvent.LocalClose
        | none => st
      { st1 with host_address_map_ := eraseStr h.address st1.host_address_map_ })
    st

/-- The shared `client_map_[host]` block of `makeRequest` and
`makeRequestToHost`: reuse the existing client, or build a new
`ThreadLocalActiveClient` via `client_factory_.create` and register its
connection callbacks. -/
def getOrCreateClient (st : PoolState) (h : Host) : Client × PoolState :=
  match lookupHost h st.client_map_ with
  | some c => (c, st)
  | none =>
    let c : Client := { id := st.next_client_id }
    (c,
      { st with
        client_map_ := st.client_map_ ++ [(h, c)]
        next_client_id := st.next_client_id + 1
        factory_calls := st.factory_calls + 1 })

/-- Forward the request on the host's client; the returned handle is the
token produced by the external client's `makeRequest`, identified by the
client's id. -/
def finishRequest (st : PoolState) (h : Host) : Option Nat × PoolState :=
  let (c, st1) := getOrCreateClient st h
  (some c.id, st1)

/-- `ThreadLocalPool::makeRequest`: null when no cluster is tracked or
the load balancer chooses no host; otherwise gets or creates the host's
client, re-inserts the host into `host_address_map_` if missing
(defensive resync), and forwards the request.  The load balancer is
consulted with the effective hash key: the `LbContextImpl` constructed
from `(key, enableHashtagging())` exposes `hashtag(key, enabled)` as the
value hashed for host selection (the context's hashing lives in the
pool's header, which matches the spec's load-balancer contract). -/
def makeRequest (ext : Externals) (st : PoolState) (key : String) :
    Option Nat × PoolState :=
  match st.cluster_ with
  | none => (none, st)
  | some _ =>
    match ext.chooseHost (hashtag key st.enable_hashtagging_) st.enable_hashtagging_ with
    | none => (none, st)
    | some host =>
      let (c, st1) := getOrCreateClient st host
      let st2 :=
        match lookupStr host.address st1.host_address_map_ with
        | some _ => st1
        | none => { st1 with host_address_map_ := insertStr host.address host st1.host_address_map_ }
      (some c.id, st2)

/-- The outcome of `makeRequestToHost`'s address classification: an IPv4
input keeps the raw input string as map key and defers port parsing and
address construction until a new host is needed; an IPv6 input has
already built its address, whose `asString()` is the map key. -/
inductive ParsedAddr where
  | v4 (key ipAddress portStr : String)
  | v6 (addrStr : String)
  deriving DecidableEq, Repr

def ParsedAddr.key : ParsedAddr → String
  | .v4 k _ _ => k
  | .v6 a => a

/-- The address-splitting prefix of `makeRequestToHost`: find the last
colon (fail if absent or trailing); classify as IPv6 when the host
portion contains a colon, in which case the port is parsed, range-checked
against 65535 and the `Ipv6Instance` built immediately; IPv4 inputs pass
through with parsing deferred. -/
def parseAddr (ext : Externals) (host_address : String) : Option ParsedAddr :=
  match lastIdxOf host_address.data (colonChar) with
  | none => none
  | some colon_pos =>
    if colon_pos = host_address.data.length - 1 then none
    else
      let ip_address := String.mk (host_address.data.take colon_pos)
      let port_str := String.mk (host_address.data.drop (colon_pos + 1))
      if (ip_address.data.contains (colonChar) : Bool) then
        match simpleAtoi port_str with
        | none => none
        | some p =>
          if 65535 < p then none
          else
            match ext.mkIpv6 ip_address p with
            | none => none
            | some a => some (ParsedAddr.v6 a)
      else some (ParsedAddr.v4 host_address ip_address port_str)

/-- The address string for a host synthesized on a `host_address_map_`
miss: for IPv6 the already-built address; for IPv4 the port is parsed and
range-checked now and the `Ipv4Instance` built, either of which can
fail. -/
def synthAddrStr (ext : Externals) : ParsedAddr → Option String
  | .v6 a => some a
  | .v4 _ ip port_str =>
    match simpleAtoi port_str with
    | none => none
    | some p => if 65535 < p then none else ext.mkIpv4 ip p

/-- The `Upstream::HostImpl` built for an unknown address: weight 1,
default (absent) metadata, health status UNKNOWN, pool-owned. -/
def mkSyntheticHost (hostId : Nat) (addrStr : String) : Host :=
  { id := hostId
    address := addrStr
    weight := 1
    health := HealthStatus.Unknown
    hasMetadata := false
    synthetic := true }

/-- `ThreadLocalPool::makeRequestToHost`: null when no cluster is
tracked; parse the address string; look the map key up in
`host_address_map_`, synthesizing and inserting a new pool-owned host on
a miss (where IPv4 port parsing/address construction happens and can
fail); then get or create the client and forward the request. -/
def makeRequestToHost (ext : Externals) (st : PoolState) (host_address : String) :
    Option Nat × PoolState :=
  match st.cluster_ with
  | none => (none, st)
  | some _ =>
    match parseAddr ext host_address with
    | none => (none, st)
    | some pa =>
      match lookupStr pa.key st.host_address_map_ with
      | some host => finishRequest st host
      | none =>
        match synthAddrStr ext pa with
        | none => (none, st)
        | some addrStr =>
          let new_host := mkSyntheticHost st.next_host_id addrStr
          let st1 :=
            { st with
              host_address_map_ := insertStr pa.key new_host st.host_address_map_
              next_host_id := st.next_host_id + 1 }
          finishRequest st1 new_host

/-- The events that can mutate a `ThreadLocalPool`, all delivered on the
owning thread's event loop. -/
inductive Step : PoolState → PoolState → Prop where
  | addOrUpdate (st : PoolState) (g : Group) :
      Step st (onClusterAddOrUpdateNonVirtual st g)
  | removal (st : PoolState) (name : String) :
      Step st (onClusterRemoval st name)
  | hostsRemoved (st : PoolState) (hs : List Host) :
      Step st (onHostsRemoved st hs)
  | request (st : PoolState) (ext : Externals) (key : String) :
      Step st (makeRequest ext st key).2
  | requestToHost (st : PoolState) (ext : Externals) (addr : String) :
      Step st (makeRequestToHost ext st addr).2
  | closeEvent (st : PoolState) (h : Host) (ev : ConnectionEvent) :
      Step st (onEvent st h ev)
  | deferredSweep (st : PoolState) :
      Step st (runDeferred st)

/-- The pool states reachable from a freshly constructed pool. -/
def Reachable (name : String) (hashtagging : Bool) (st : PoolState) : Prop :=
  Relation.ReflTransGen Step (mkPool name hashtagging) st

/-! Concrete data used to exercise the model. -/

def hostA : Host :=
  { id := 1, address := "10.0.0.1:6379", weight := 3,
    health := HealthStatus.Healthy, hasMetadata := true, synthetic := false }

def hostB : Host :=
  { id := 2, address := "10.0.0.2:6379", weight := 1,
    health := HealthStatus.Healthy, hasMetadata := true, synthetic := false }

/-- A concrete instantiation of the external collaborators: a load
balancer that maps the hash key "user1000" to `hostA`, and address
constructors accepting exactly the literals used below. -/
def ext0 : Externals :=
  { chooseHost := fun k _ => if k = "user1000" then some hostA else none
    mkIpv4 := fun ip p =>
      if ip = "10.0.0.9" then some (ip ++ ":" ++ Nat.repr p) else none
    mkIpv6 := fun ip p =>
      if ip = "::1" then some ("[::1]:" ++ Nat.repr p) else none }

def g1 : Group := { name := "redis", hosts := [hostA, hostB] }

def g2 : Group := { name := "redis", hosts := [hostB] }

def st0 : PoolState := mkPool "redis" true

/-- The pool after the cluster `g1` is announced. -/
def stC : PoolState := onClusterAddOrUpdateNonVirtual st0 g1

/-- The pool after one load-balanced request, which created client 0 for
`hostA`. -/
def stR : PoolState := (makeRequest ext0 stC "\x7buser1000\x7d.following").2

example : stC.cluster_ = some g1 := by decide
example : (makeRequest ext0 stC "\x7buser1000\x7d.following").1 = some 0 := by decide
example : lookupHost hostA stR.client_map_ = some { id := 0 } := by decide
example : stR.factory_calls = 1 := by decide
example : (makeRequest ext0 stR "\x7buser1000\x7d.xyz").1 = some 0 := by decide
example : (makeRequest ext0 stR "\x7buser1000\x7d.xyz").2.factory_calls = 1 := by decide
example : (makeRequestToHost ext0 stC "badhost").1 = none := by decide
example : (makeRequestToHost ext0 stC "10.0.0.9:").1 = none := by decide
example : (makeRequestToHost ext0 stC "10.0.0.9:99999").1 = none := by decide
example : (makeRequestToHost ext0 stC "10.0.0.9:6379").1 = some 0 := by decide

/-- The pool after one direct-address request that synthesized a host. -/
def stT : PoolState := (makeRequestToHost ext0 stC "10.0.0.9:6379").2

example : (makeRequestToHost ext0 stT "10.0.0.9:6379") = (some 0, stT) := by decide
example : stT.factory_calls = 1 := by decide
example : (lookupStr "10.0.0.9:6379" stT.host_address_map_).isSome = true := by decide
example : (onClusterRemoval stR "redis").client_map_ = [] := by decide
example : (onClusterRemoval stR "redis").closed_clients = [0] := by decide
example : (onHostsRemoved stR [hostA]).closed_clients = [0] := by decide
example : lookupStr hostA.address (onHostsRemoved stR [hostA]).host_address_map_ = none := by
  decide

/-! Association-map lemmas. -/

theorem lookupHost_eraseHost_self (h : Host) (m : ClientMap) :
    lookupHost h (eraseHost h m) = none := by
  induction m with
  | nil => rfl
  | cons p rest ih =>
    obtain ⟨h', c⟩ := p
    by_cases hh : h' = h
    · simp [eraseHost, List.filter, hh] at ih ⊢
      exact ih
    · simpa [eraseHost, List.filter, hh, lookupHost] using ih

theorem lookupHost_eraseHost_ne (h h' : Host) (m : ClientMap) (hne : h ≠ h') :
    lookupHost h (eraseHost h' m) = lookupHost h m := by
  induction m with
  | nil => rfl
  | cons p rest ih =>
    obtain ⟨k, c⟩ := p
    by_cases hk : k = h'
    · subst hk
      have : ¬(k = h) := fun e => hne (e ▸ rfl)
      simp [eraseHost, List.filter, lookupHost, this] at ih ⊢
      exact ih
    · by_cases hk2 : k = h
      · subst hk2
        simp [eraseHost, List.filter, hk, lookupHost, hne]
      · simp [eraseHost, List.filter, hk, lookupHost, hk2] at ih ⊢
        exact ih

theorem lookupHost_filter_none (h : Host) (q : Host × Client → Bool) (m : ClientMap)
    (hm : lookupHost h m = none) : lookupHost h (m.filter q) = none := by
  induction m with
  | nil => rfl
  | cons p rest ih =>
    obtain ⟨k, c⟩ := p
    by_cases hk : k = h
    · simp [lookupHost, hk] at hm
    · simp only [lookupHost, hk, if_false] at hm
      by_cases hq : q (k, c)
      · simpa [List.filter, hq, lookupHost, hk] using ih hm
      · simpa [List.filter, hq] using ih hm

theorem lookupHost_append_new (h : Host) (c : Client) (m : ClientMap)
    (hm : lookupHost h m = none) : lookupHost h (m ++ [(h, c)]) = some c := by
  induction m with
  | nil => simp [lookupHost]
  | cons p rest ih =>
    obtain ⟨k, c'⟩ := p
    by_cases hk : k = h
    · simp [lookupHost, hk] at hm
    · simp only [lookupHost, hk, if_false] at hm
      simpa [lookupHost, hk] using ih hm

theorem lookupHost_append_other (h h' : Host) (c : Client) (m : ClientMap)
    (hne : h ≠ h') : lookupHost h (m ++ [(h', c)]) = lookupHost h m := by
  induction m with
  | nil => simp [lookupHost, Ne.symm hne]
  | cons p rest ih =>
    obtain ⟨k, c'⟩ := p
    by_cases hk : k = h
    · simp [lookupHost, hk]
    · simpa [lookupHost, hk] using ih

theorem lookupStr_insertStr (k k' : String) (v : Host) (m : AddressMap) :
    lookupStr k (insertStr k' v m) =
      if k' = k then some v else lookupStr k m := by
  induction m with
  | nil => simp [insertStr, lookupStr]
  | cons p rest ih =>
    obtain ⟨a, b⟩ := p
    by_cases ha : a = k'
    · by_cases hk : k' = k
      · simp [insertStr, ha, lookupStr, hk]
      · simp [insertStr, ha, lookupStr, hk, ha ▸ hk]
    · by_cases hk2 : a = k
      · subst hk2
        have hne : k' ≠ a := fun e => ha e.symm
        simp [insertStr, Ne.symm hne, lookupStr, hne]
      · simp [insertStr, ha, lookupStr, hk2, ih]

theorem lookupStr_eraseStr_self (k : String) (m : AddressMap) :
    lookupStr k (eraseStr k m) = none := by
  induction m with
  | nil => rfl
  | cons p rest ih =>
    obtain ⟨a, b⟩ := p
    by_cases ha : a = k
    · simp [eraseStr, List.filter, ha] at ih ⊢
      exact ih
    · simpa [eraseStr, List.filter, ha, lookupStr] using ih

theorem lookupStr_filter_none (k : String) (q : String × Host → Bool) (m : AddressMap)
    (hm : lookupStr k m = none) : lookupStr k (m.filter q) = none := by
  induction m with
  | nil => rfl
  | cons p rest ih =>
    obtain ⟨a, b⟩ := p
    by_cases ha : a = k
    · simp [lookupStr, ha] at hm
    · simp only [lookupStr, ha, if_false] at hm
      by_cases hq : q (a, b)
      · simpa [List.filter, hq, lookupStr, ha] using ih hm
      · simpa [List.filter, hq] using ih hm

/-! String-search lemmas. -/

theorem lastIdxOf_eq_none_iff (cs : List Char) (c : Char) :
    lastIdxOf cs c = none ↔ c ∉ cs := by
  induction cs with
  | nil => simp [lastIdxOf]
  | cons x xs ih =>
    constructor
    · intro h hm
      simp only [lastIdxOf] at h
      cases hx : lastIdxOf xs c with
      | some j => simp [hx] at h
      | none =>
        simp only [hx] at h
        by_cases hxc : x = c
        · simp [hxc] at h
        · rcases List.mem_cons.mp hm with h1 | h2
          · exact hxc h1.symm
          · exact (ih.mp hx) h2
    · intro hm
      have hx : c ∉ xs := fun h => hm (List.mem_cons_of_mem _ h)
      have hxc : ¬(x = c) := fun h => hm (h ▸ List.mem_cons_self x xs)
      simp [lastIdxOf, ih.mpr hx, hxc]

theorem lastIdxOf_lt_length (cs : List Char) (c : Char) (i : Nat)
    (h : lastIdxOf cs c = some i) : i < cs.length := by
  induction cs generalizing i with
  | nil => simp [lastIdxOf] at h
  | cons x xs ih =>
    simp only [lastIdxOf] at h
    cases hx : lastIdxOf xs c with
    | some j =>
      simp only [hx, Option.some.injEq] at h
      subst h
      exact Nat.succ_lt_succ (ih j hx)
    | none =>
      simp only [hx] at h
      by_cases hxc : x = c
      · simp only [hxc, if_true, Option.some.injEq] at h
        subst h
        exact Nat.succ_pos _
      · simp [hxc] at h

/-! Lemmas about the close path. -/

/-- Whether the keys (host identities) of `client_map_` are pairwise
distinct — the `std::map` uniqueness invariant. -/
def KeysNodup (m : ClientMap) : Prop := (m.map Prod.fst).Nodup

instance (m : ClientMap) : Decidable (KeysNodup m) := by
  unfold KeysNodup; infer_instance

theorem onEvent_preserves (st : PoolState) (h : Host) (ev : ConnectionEvent) :
    (onEvent st h ev).cluster_name_ = st.cluster_name_ ∧
    (onEvent st h ev).enable_hashtagging_ = st.enable_hashtagging_ ∧
    (onEvent st h ev).cluster_ = st.cluster_ ∧
    (onEvent st h ev).host_address_map_ = st.host_address_map_ ∧
    (onEvent st h ev).host_set_member_update_cb_handle_ =
      st.host_set_member_update_cb_handle_ ∧
    (onEvent st h ev).next_client_id = st.next_client_id ∧
    (onEvent st h ev).next_host_id = st.next_host_id ∧
    (onEvent st h ev).destroyed = st.destroyed ∧
    (onEvent st h ev).factory_calls = st.factory_calls := by
  cases ev <;> simp only [onEvent] <;>
    cases lookupHost h st.client_map_ <;> simp

theorem eraseHost_head (h : Host) (c : Client) (tl : ClientMap) :
    eraseHost h ((h, c) :: tl) = eraseHost h tl := by
  simp [eraseHost, List.filter]

theorem eraseHost_head_nodup (h : Host) (c : Client) (tl : ClientMap)
    (hn : h ∉ tl.map Prod.fst) : eraseHost h ((h, c) :: tl) = tl := by
  rw [eraseHost_head]
  unfold eraseHost
  apply List.filter_eq_self.mpr
  intro p hp
  have : p.1 ≠ h := fun e => hn (e ▸ List.mem_map_of_mem Prod.fst hp)
  simp [this]

theorem eraseHost_length_le (h : Host) (c : Client) (tl : ClientMap) :
    (eraseHost h ((h, c) :: tl)).length ≤ tl.length := by
  rw [eraseHost_head]
  exact List.length_filter_le _ _

theorem closeLoop_preserves (n : Nat) (st : PoolState) :
    (closeLoop st n).cluster_name_ = st.cluster_name_ ∧
    (closeLoop st n).enable_hashtagging_ = st.enable_hashtagging_ ∧
    (closeLoop st n).cluster_ = st.cluster_ ∧
    (closeLoop st n).host_address_map_ = st.host_address_map_ ∧
    (closeLoop st n).host_set_member_update_cb_handle_ =
      st.host_set_member_update_cb_handle_ ∧
    (closeLoop st n).next_client_id = st.next_client_id ∧
    (closeLoop st n).next_host_id = st.next_host_id ∧
    (closeLoop st n).destroyed = st.destroyed ∧
    (closeLoop st n).factory_calls = st.factory_calls := by
  induction n generalizing st with
  | zero => simp [closeLoop]
  | succ n ih =>
    cases hm : st.client_map_ with
    | nil => simp [closeLoop, hm]
    | cons p tl =>
      obtain ⟨h, c⟩ := p
      simp only [closeLoop, hm]
      have he := onEvent_preserves st h ConnectionEvent.LocalClose
      have hi := ih (onEvent st h ConnectionEvent.LocalClose)
      exact ⟨hi.1.trans he.1, hi.2.1.trans he.2.1, hi.2.2.1.trans he.2.2.1,
        hi.2.2.2.1.trans he.2.2.2.1, hi.2.2.2.2.1.trans he.2.2.2.2.1,
        hi.2.2.2.2.2.1.trans he.2.2.2.2.2.1, hi.2.2.2.2.2.2.1.trans he.2.2.2.2.2.2.1,
        hi.2.2.2.2.2.2.2.1.trans he.2.2.2.2.2.2.2.1,
        hi.2.2.2.2.2.2.2.2.trans he.2.2.2.2.2.2.2.2⟩

theorem onEvent_close_found (st : PoolState) (h : Host) (c : Client) (ev : ConnectionEvent)
    (hev : ev ≠ ConnectionEvent.Connected)
    (hlk : lookupHost h st.client_map_ = some c) :
    onEvent st h ev =
      { st with client_map_ := eraseHost h st.client_map_,
                closed_clients := st.closed_clients ++ [c.id],
                deferred_deletes := st.deferred_deletes ++ [c.id] } := by
  cases ev with
  | Connected => exact absurd rfl hev
  | RemoteClose => simp [onEvent, hlk]
  | LocalClose => simp [onEvent, hlk]

theorem onEvent_close_missing (st : PoolState) (h : Host) (ev : ConnectionEvent)
    (hlk : lookupHost h st.client_map_ = none) :
    onEvent st h ev = st := by
  cases ev <;> simp [onEvent, hlk]

theorem closeLoop_empties (n : Nat) (st : PoolState)
    (hlen : st.client_map_.length ≤ n) : (closeLoop st n).client_map_ = [] := by
  induction n generalizing st with
  | zero =>
    have h0 : st.client_map_ = [] := List.length_eq_zero.mp (Nat.le_zero.mp hlen)
    simp [closeLoop, h0]
  | succ n ih =>
    cases hm : st.client_map_ with
    | nil => simp [closeLoop, hm]
    | cons p tl =>
      obtain ⟨h, c⟩ := p
      have hlk : lookupHost h st.client_map_ = some c := by simp [hm, lookupHost]
      have hlen2 : tl.length ≤ n := by
        rw [hm] at hlen
        simp only [List.length_cons] at hlen
        omega
      simp only [closeLoop, hm]
      apply ih
      rw [onEvent_close_found st h c ConnectionEvent.LocalClose (by simp) hlk]
      have hle := eraseHost_length_le h c tl
      calc (eraseHost h st.client_map_).length
          = (eraseHost h ((h, c) :: tl)).length := by rw [hm]
        _ ≤ tl.length := hle
        _ ≤ n := hlen2

theorem closeLoop_closed (n : Nat) (st : PoolState)
    (hnd : KeysNodup st.client_map_) (hlen : st.client_map_.length ≤ n) :
    (closeLoop st n).closed_clients =
      st.closed_clients ++ st.client_map_.map (fun p => p.2.id) ∧
    (closeLoop st n).deferred_deletes =
      st.deferred_deletes ++ st.client_map_.map (fun p => p.2.id) := by
  induction n generalizing st with
  | zero =>
    have h0 : st.client_map_ = [] := List.length_eq_zero.mp (Nat.le_zero.mp hlen)
    simp [closeLoop, h0]
  | succ n ih =>
    cases hm : st.client_map_ with
    | nil => simp [closeLoop, hm]
    | cons p tl =>
      obtain ⟨h, c⟩ := p
      have hlk : lookupHost h st.client_map_ = some c := by simp [hm, lookupHost]
      have hmap : (h :: tl.map Prod.fst).Nodup := by
        unfold KeysNodup at hnd
        rw [hm] at hnd
        simpa using hnd
      have hn : h ∉ tl.map Prod.fst := (List.nodup_cons.mp hmap).1
      have hnd2 : KeysNodup tl := (List.nodup_cons.mp hmap).2
      have hlen2 : tl.length ≤ n := by
        rw [hm] at hlen
        simp only [List.length_cons] at hlen
        omega
      have herase : eraseHost h st.client_map_ = tl := by
        rw [hm]
        exact eraseHost_head_nodup h c tl hn
      have hst1 := onEvent_close_found st h c ConnectionEvent.LocalClose (by simp) hlk
      rw [herase] at hst1
      have hrec := ih
        { st with client_map_ := tl,
                  closed_clients := st.closed_clients ++ [c.id],
                  deferred_deletes := st.deferred_deletes ++ [c.id] }
        hnd2 hlen2
      simp only [closeLoop, hm, hst1]
      refine ⟨?_, ?_⟩
      · rw [hrec.1]
        simp
      · rw [hrec.2]
        simp

/-! Characterizations of the membership operations. -/

theorem onClusterRemoval_nomatch (st : PoolState) (name : String)
    (hname : name ≠ st.cluster_name_) : onClusterRemoval st name = st := by
  simp [onClusterRemoval, hname]

theorem onClusterRemoval_match (st : PoolState) (name : String)
    (hname : name = st.cluster_name_) :
    (onClusterRemoval st name).cluster_ = none ∧
    (onClusterRemoval st name).host_set_member_update_cb_handle_ = false ∧
    (onClusterRemoval st name).host_address_map_ = [] ∧
    (onClusterRemoval st name).client_map_ = [] ∧
    (onClusterRemoval st name).cluster_name_ = st.cluster_name_ ∧
    (onClusterRemoval st name).enable_hashtagging_ = st.enable_hashtagging_ ∧
    (onClusterRemoval st name).next_client_id = st.next_client_id ∧
    (onClusterRemoval st name).next_host_id = st.next_host_id ∧
    (onClusterRemoval st name).destroyed = st.destroyed ∧
    (onClusterRemoval st name).factory_calls = st.factory_calls ∧
    (KeysNodup st.client_map_ →
      (onClusterRemoval st name).closed_clients =
        st.closed_clients ++ st.client_map_.map (fun p => p.2.id) ∧
      (onClusterRemoval st name).deferred_deletes =
        st.deferred_deletes ++ st.client_map_.map (fun p => p.2.id)) := by
  have hne : ¬(name ≠ st.cluster_name_) := by simpa using hname
  have hcl : onClusterRemoval st name =
      { closeAllClients st with
        cluster_ := none
        host_set_member_update_cb_handle_ := false
        host_address_map_ := [] } := by
    simp [onClusterRemoval, hne]
  have hpres := closeLoop_preserves st.client_map_.length st
  have hemp := closeLoop_empties st.client_map_.length st (Nat.le_refl _)
  rw [hcl]
  refine ⟨rfl, rfl, rfl, ?_, ?_, ?_, ?_, ?_, ?_, ?_, ?_⟩
  · simpa [closeAllClients] using hemp
  · simpa [closeAllClients] using hpres.1
  · simpa [closeAllClients] using hpres.2.1
  · simpa [closeAllClients] using hpres.2.2.2.2.2.1
  · simpa [closeAllClients] using hpres.2.2.2.2.2.2.1
  · simpa [closeAllClients] using hpres.2.2.2.2.2.2.2.1
  · simpa [closeAllClients] using hpres.2.2.2.2.2.2.2.2
  · intro hnd
    have := closeLoop_closed st.client_map_.length st hnd (Nat.le_refl _)
    exact ⟨by simpa [closeAllClients] using this.1,
      by simpa [closeAllClients] using this.2⟩

theorem lookupStr_buildIndex_notmem (k : String) (hs : List Host) (m : AddressMap)
    (hk : k ∉ hs.map Host.address) :
    lookupStr k (buildIndex hs m) = lookupStr k m := by
  induction hs generalizing m with
  | nil => rfl
  | cons h tl ih =>
    rw [List.map_cons, List.mem_cons, not_or] at hk
    simp only [buildIndex]
    rw [ih _ hk.2, lookupStr_insertStr, if_neg (fun e => hk.1 e.symm)]

theorem lookupStr_buildIndex_mem (h : Host) (hs : List Host)
    (hmem : h ∈ hs) (hnd : (hs.map Host.address).Nodup) :
    ∀ m, lookupStr h.address (buildIndex hs m) = some h := by
  induction hs with
  | nil => simp at hmem
  | cons h0 tl ih =>
    intro m
    rw [List.map_cons, List.nodup_cons] at hnd
    by_cases he : h = h0
    · subst he
      simp only [buildIndex]
      rw [lookupStr_buildIndex_notmem _ _ _ hnd.1, lookupStr_insertStr, if_pos rfl]
    · have hmem2 : h ∈ tl := by
        rcases List.mem_cons.mp hmem with h1 | h2
        · exact absurd h1 he
        · exact h2
      simp only [buildIndex]
      exact ih hmem2 hnd.2 (insertStr h0.address h0 m)

theorem lookupStr_buildIndex_some (k : String) (v : Host) (hs : List Host) (m : AddressMap)
    (hlk : lookupStr k (buildIndex hs m) = some v) :
    (v ∈ hs ∧ k = v.address) ∨ lookupStr k m = some v := by
  induction hs generalizing m with
  | nil => exact Or.inr hlk
  | cons h0 tl ih =>
    simp only [buildIndex] at hlk
    rcases ih _ hlk with h1 | h2
    · exact Or.inl ⟨List.mem_cons_of_mem _ h1.1, h1.2⟩
    · rw [lookupStr_insertStr] at h2
      by_cases he : h0.address = k
      · simp only [he, if_pos rfl] at h2
        refine Or.inl ⟨?_, ?_⟩
        · rw [← Option.some_inj.mp h2]
          exact List.mem_cons_self _ _
        · rw [← Option.some_inj.mp h2]
          exact he.symm
      · rw [if_neg he] at h2
        exact Or.inr h2

/-! Lemmas about the request paths. -/

theorem getOrCreateClient_found (st : PoolState) (h : Host) (c : Client)
    (hc : lookupHost h st.client_map_ = some c) :
    getOrCreateClient st h = (c, st) := by
  simp [getOrCreateClient, hc]

theorem getOrCreateClient_missing (st : PoolState) (h : Host)
    (hc : lookupHost h st.client_map_ = none) :
    getOrCreateClient st h =
      ({ id := st.next_client_id },
       { st with
         client_map_ := st.client_map_ ++ [(h, { id := st.next_client_id })]
         next_client_id := st.next_client_id + 1
         factory_calls := st.factory_calls + 1 }) := by
  simp [getOrCreateClient, hc]

theorem makeRequest_no_cluster (ext : Externals) (st : PoolState) (key : String)
    (hc : st.cluster_ = none) : makeRequest ext st key = (none, st) := by
  simp [makeRequest, hc]

theorem makeRequestToHost_no_cluster (ext : Externals) (st : PoolState) (addr : String)
    (hc : st.cluster_ = none) : makeRequestToHost ext st addr = (none, st) := by
  simp [makeRequestToHost, hc]

theorem makeRequest_preserves (ext : Externals) (st : PoolState) (key : String) :
    (makeRequest ext st key).2.cluster_ = st.cluster_ ∧
    (makeRequest ext st key).2.host_set_member_update_cb_handle_ =
      st.host_set_member_update_cb_handle_ ∧
    (makeRequest ext st key).2.cluster_name_ = st.cluster_name_ ∧
    (makeRequest ext st key).2.enable_hashtagging_ = st.enable_hashtagging_ ∧
    (makeRequest ext st key).2.destroyed = st.destroyed := by
  cases hcl : st.cluster_ with
  | none => simp [makeRequest, hcl]
  | some g =>
    cases hlb : ext.chooseHost (hashtag key st.enable_hashtagging_) st.enable_hashtagging_ with
    | none => simp [makeRequest, hcl, hlb]
    | some host =>
      cases hg : lookupHost host st.client_map_ with
      | some c =>
        cases hls : lookupStr host.address st.host_address_map_ <;>
          simp [makeRequest, hcl, hlb, getOrCreateClient_found st host c hg, hls]
      | none =>
        cases hls : lookupStr host.address st.host_address_map_ <;>
          simp [makeRequest, hcl, hlb, getOrCreateClient_missing st host hg, hls]

theorem finishRequest_preserves (st : PoolState) (h : Host) :
    (finishRequest st h).2.cluster_ = st.cluster_ ∧
    (finishRequest st h).2.host_set_member_update_cb_handle_ =
      st.host_set_member_update_cb_handle_ ∧
    (finishRequest st h).2.cluster_name_ = st.cluster_name_ ∧
    (finishRequest st h).2.enable_hashtagging_ = st.enable_hashtagging_ ∧
    (finishRequest st h).2.destroyed = st.destroyed := by
  unfold finishRequest
  cases hg : lookupHost h st.client_map_ with
  | some c => rw [getOrCreateClient_found st h c hg]; simp
  | none => rw [getOrCreateClient_missing st h hg]; simp

theorem makeRequestToHost_preserves (ext : Externals) (st : PoolState) (addr : String) :
    (makeRequestToHost ext st addr).2.cluster_ = st.cluster_ ∧
    (makeRequestToHost ext st addr).2.host_set_member_update_cb_handle_ =
      st.host_set_member_update_cb_handle_ ∧
    (makeRequestToHost ext st addr).2.cluster_name_ = st.cluster_name_ ∧
    (makeRequestToHost ext st addr).2.enable_hashtagging_ = st.enable_hashtagging_ ∧
    (makeRequestToHost ext st addr).2.destroyed = st.destroyed := by
  cases hcl : st.cluster_ with
  | none => simp [makeRequestToHost, hcl]
  | some g =>
    cases hpa : parseAddr ext addr with
    | none => simp [makeRequestToHost, hcl, hpa]
    | some pa =>
      cases hls : lookupStr pa.key st.host_address_map_ with
      | some host =>
        have hf := finishRequest_preserves st host
        rw [hcl] at hf
        simp only [makeRequestToHost, hcl, hpa, hls]
        exact hf
      | none =>
        cases hsy : synthAddrStr ext pa with
        | none => simp [makeRequestToHost, hcl, hpa, hls, hsy]
        | some as =>
          have hf := finishRequest_preserves
            { st with
              host_address_map_ :=
                insertStr pa.key (mkSyntheticHost st.next_host_id as) st.host_address_map_
              next_host_id := st.next_host_id + 1 }
            (mkSyntheticHost st.next_host_id as)
          rw [show ({ st with
              host_address_map_ :=
                insertStr pa.key (mkSyntheticHost st.next_host_id as) st.host_address_map_
              next_host_id := st.next_host_id + 1 } : PoolState).cluster_ = some g
            from hcl] at hf
          simp only [makeRequestToHost, hcl, hpa, hls, hsy]
          exact hf

theorem onHostsRemoved_nil (st : PoolState) : onHostsRemoved st [] = st := rfl

theorem onHostsRemoved_cons (st : PoolState) (h : Host) (tl : List Host) :
    onHostsRemoved st (h :: tl) =
      onHostsRemoved
        (let st1 :=
          match lookupHost h st.client_map_ with
          | some _ => onEvent st h ConnectionEvent.LocalClose
          | none => st
        { st1 with host_address_map_ := eraseStr h.address st1.host_address_map_ }) tl := rfl

theorem onHostsRemoved_preserves (hs : List Host) (st : PoolState) :
    (onHostsRemoved st hs).cluster_ = st.cluster_ ∧
    (onHostsRemoved st hs).host_set_member_update_cb_handle_ =
      st.host_set_member_update_cb_handle_ ∧
    (onHostsRemoved st hs).cluster_name_ = st.cluster_name_ ∧
    (onHostsRemoved st hs).enable_hashtagging_ = st.enable_hashtagging_ ∧
    (onHostsRemoved st hs).destroyed = st.destroyed := by
  induction hs generalizing st with
  | nil => simp [onHostsRemoved_nil]
  | cons h tl ih =>
    rw [onHostsRemoved_cons]
    cases hlk : lookupHost h st.client_map_ with
    | none =>
      simp only [hlk]
      have := ih { st with host_address_map_ := eraseStr h.address st.host_address_map_ }
      simpa using this
    | some c =>
      simp only [hlk]
      rw [onEvent_close_found st h c ConnectionEvent.LocalClose (by simp) hlk]
      have := ih
        { st with
          client_map_ := eraseHost h st.client_map_
          closed_clients := st.closed_clients ++ [c.id]
          deferred_deletes := st.deferred_deletes ++ [c.id]
          host_address_map_ := eraseStr h.address st.host_address_map_ }
      simpa using this

theorem onHostsRemoved_client_none (hs : List Host) (st : PoolState) (x : Host)
    (hx : lookupHost x st.client_map_ = none) :
    lookupHost x (onHostsRemoved st hs).client_map_ = none := by
  induction hs generalizing st with
  | nil => simpa [onHostsRemoved_nil] using hx
  | cons h tl ih =>
    rw [onHostsRemoved_cons]
    cases hlk : lookupHost h st.client_map_ with
    | none =>
      simp only [hlk]
      exact ih { st with host_address_map_ := eraseStr h.address st.host_address_map_ }
        (by simpa using hx)
    | some c =>
      simp only [hlk]
      rw [onEvent_close_found st h c ConnectionEvent.LocalClose (by simp) hlk]
      refine ih _ ?_
      simpa [eraseHost] using lookupHost_filter_none x _ st.client_map_ hx

theorem onHostsRemoved_addr_none (hs : List Host) (st : PoolState) (k : String)
    (hk : lookupStr k st.host_address_map_ = none) :
    lookupStr k (onHostsRemoved st hs).host_address_map_ = none := by
  induction hs generalizing st with
  | nil => simpa [onHostsRemoved_nil] using hk
  | cons h tl ih =>
    rw [onHostsRemoved_cons]
    cases hlk : lookupHost h st.client_map_ with
    | none =>
      simp only [hlk]
      refine ih _ ?_
      simpa [eraseStr] using lookupStr_filter_none k _ st.host_address_map_ hk
    | some c =>
      simp only [hlk]
      rw [onEvent_close_found st h c ConnectionEvent.LocalClose (by simp) hlk]
      refine ih _ ?_
      simpa [eraseStr] using lookupStr_filter_none k _ st.host_address_map_ hk

theorem onHostsRemoved_closed_mono (hs : List Host) (st : PoolState) (x : Nat)
    (hx : x ∈ st.closed_clients) :
    x ∈ (onHostsRemoved st hs).closed_clients := by
  induction hs generalizing st with
  | nil => simpa [onHostsRemoved_nil] using hx
  | cons h tl ih =>
    rw [onHostsRemoved_cons]
    cases hlk : lookupHost h st.client_map_ with
    | none =>
      simp only [hlk]
      exact ih _ (by simpa using hx)
    | some c =>
      simp only [hlk]
      rw [onEvent_close_found st h c ConnectionEvent.LocalClose (by simp) hlk]
      refine ih _ ?_
      simp only []
      exact List.mem_append_left _ hx

theorem onHostsRemoved_empty_map (hs : List Host) (st : PoolState)
    (hm : st.client_map_ = []) : (onHostsRemoved st hs).client_map_ = [] := by
  induction hs generalizing st with
  | nil => simpa [onHostsRemoved_nil] using hm
  | cons h tl ih =>
    rw [onHostsRemoved_cons]
    have hlk : lookupHost h st.client_map_ = none := by simp [hm, lookupHost]
    simp only [hlk]
    exact ih _ (by simpa using hm)

/-! The reachable-state invariant behind claim C4. -/

/-- The fail-fast invariant: an untracked group means no live clients and
no membership subscription. -/
def Inv (st : PoolState) : Prop :=
  st.cluster_ = none →
    st.client_map_ = [] ∧ st.host_set_member_update_cb_handle_ = false

theorem step_preserves_inv (st st' : PoolState) (hstep : Step st st') (hinv : Inv st) :
    Inv st' := by
  cases hstep with
  | addOrUpdate g =>
    intro hnone
    by_cases hname : g.name ≠ st.cluster_name_
    · rw [onClusterAddOrUpdateNonVirtual, if_pos hname] at hnone ⊢
      exact hinv hnone
    · have : (onClusterAddOrUpdateNonVirtual st g).cluster_ = some g := by
        simp only [onClusterAddOrUpdateNonVirtual, if_neg hname]
      rw [this] at hnone
      exact absurd hnone (by simp)
  | removal name =>
    intro _
    by_cases hname : name ≠ st.cluster_name_
    · rw [onClusterRemoval_nomatch st name hname] at *
      exact hinv (by assumption)
    · have h := onClusterRemoval_match st name (not_not.mp hname)
      exact ⟨h.2.2.2.1, h.2.1⟩
  | hostsRemoved hs =>
    intro hnone
    have hp := onHostsRemoved_preserves hs st
    rw [hp.1] at hnone
    have h1 := hinv hnone
    exact ⟨onHostsRemoved_empty_map hs st h1.1, hp.2.1.trans h1.2⟩
  | request ext key =>
    intro hnone
    have hp := makeRequest_preserves ext st key
    rw [hp.1] at hnone
    have := makeRequest_no_cluster ext st key hnone
    rw [this]
    exact hinv hnone
  | requestToHost ext addr =>
    intro hnone
    have hp := makeRequestToHost_preserves ext st addr
    rw [hp.1] at hnone
    have := makeRequestToHost_no_cluster ext st addr hnone
    rw [this]
    exact hinv hnone
  | closeEvent h ev =>
    intro hnone
    have hp := onEvent_preserves st h ev
    rw [hp.2.2.1] at hnone
    have h1 := hinv hnone
    have hlk : lookupHost h st.client_map_ = none := by simp [h1.1, lookupHost]
    rw [onEvent_close_missing st h ev hlk]
    exact h1
  | deferredSweep =>
    intro hnone
    exact hinv (by simpa [runDeferred] using hnone)

theorem firstIdxOf_eq_none_iff (cs : List Char) (c : Char) :
    firstIdxOf cs c = none ↔ c ∉ cs := by
  induction cs with
  | nil => simp [firstIdxOf]
  | cons x xs ih =>
    by_cases hx : x = c
    · simp [firstIdxOf, hx]
    · rw [List.mem_cons]
      simp [firstIdxOf, hx, Option.map_eq_none', ih,
        (show ¬c = x from fun h => hx h.symm)]

/-- Every reachable pool state satisfies the fail-fast invariant. -/
theorem reachable_inv (name : String) (flag : Bool) (st : PoolState)
    (hreach : Reachable name flag st) : Inv st := by
  unfold Reachable at hreach
  induction hreach with
  | refl => intro _; exact ⟨rfl, rfl⟩
  | tail hsteps hstep ih => exact step_preserves_inv _ _ hstep ih

/-! The claim theorems. -/

/-- C1: the hash key extractor returns the key unchanged when disabled,
when there is no opening brace, no closing brace at or after it, or the
tag is empty; otherwise it returns exactly the substring strictly between
the first opening brace and the first closing brace after it — together
with the four concrete examples of the claim. -/
theorem hashtag_matches_spec :
    (∀ v : String, hashtag v false = v) ∧
    (∀ v : String, lbrace ∉ v.data → hashtag v true = v) ∧
    (∀ v : String, ∀ s, firstIdxOf v.data lbrace = some s →
      (firstIdxOf (v.data.drop s) rbrace = none → hashtag v true = v) ∧
      (firstIdxOf (v.data.drop s) rbrace = some 1 → hashtag v true = v) ∧
      (∀ e, firstIdxOf (v.data.drop s) rbrace = some e → e ≠ 1 →
        hashtag v true = String.mk ((v.data.drop (s + 1)).take (e - 1)))) ∧
    hashtag "\x7buser1000\x7d.following" true = "user1000" ∧
    hashtag "foo\x7b\x7d.bar" true = "foo\x7b\x7d.bar" ∧
    hashtag "nobraces" true = "nobraces" ∧
    hashtag "anything" false = "anything" := by
  refine ⟨?_, ?_, ?_, by decide, by decide, by decide, by decide⟩
  · intro v
    simp [hashtag]
  · intro v hni
    have h0 : firstIdxOf v.data lbrace = none := (firstIdxOf_eq_none_iff _ _).mpr hni
    simp [hashtag, h0]
  · intro v s hs
    refine ⟨?_, ?_, ?_⟩
    · intro h0
      simp [hashtag, hs, h0]
    · intro h1
      simp [hashtag, hs, h1]
    · intro e he hne
      have hadd : ¬(s + e = s + 1) := fun hc => hne (Nat.add_left_cancel hc)
      have harith : s + e - s - 1 = e - 1 := by omega
      simp [hashtag, hs, he, hadd, harith]

theorem hashtag_matches_spec_witness :
    hashtag "abc" false = "abc" ∧ hashtag "xyz" true = "xyz" :=
  ⟨hashtag_matches_spec.1 "abc", hashtag_matches_spec.2.1 "xyz" (by decide)⟩

/-- C4: in every reachable pool state, an absent tracked group implies an
empty connections map and an absent membership-change subscription, so
routing fails fast rather than reading stale state. -/
theorem reachable_no_cluster_fail_fast (name : String) (flag : Bool) (st : PoolState)
    (hreach : Reachable name flag st) (hnone : st.cluster_ = none) :
    st.client_map_ = [] ∧ st.host_set_member_update_cb_handle_ = false :=
  reachable_inv name flag st hreach hnone

theorem reachable_no_cluster_fail_fast_witness :
    (mkPool "redis" true).client_map_ = [] ∧
    (mkPool "redis" true).host_set_member_update_cb_handle_ = false :=
  reachable_no_cluster_fail_fast "redis" true (mkPool "redis" true)
    Relation.ReflTransGen.refl rfl

/-- C10: on a close event, locally or remotely initiated, the Active
Connection removes its own entry from `client_map_` and hands its client
to the dispatcher's deferred-deletion queue; nothing is destroyed inside
the callback itself — destruction happens only when the event loop later
runs its deferred queue. -/
theorem onEvent_close_defers (st : PoolState) (h : Host) (c : Client)
    (ev : ConnectionEvent)
    (hev : ev = ConnectionEvent.RemoteClose ∨ ev = ConnectionEvent.LocalClose)
    (hc : lookupHost h st.client_map_ = some c) :
    lookupHost h (onEvent st h ev).client_map_ = none ∧
    (onEvent st h ev).client_map_ = eraseHost h st.client_map_ ∧
    (onEvent st h ev).deferred_deletes = st.deferred_deletes ++ [c.id] ∧
    (onEvent st h ev).destroyed = st.destroyed ∧
    (runDeferred (onEvent st h ev)).destroyed =
      st.destroyed ++ st.deferred_deletes ++ [c.id] := by
  have hne : ev ≠ ConnectionEvent.Connected := by
    rcases hev with h1 | h1 <;> subst h1 <;> simp
  rw [onEvent_close_found st h c ev hne hc]
  refine ⟨?_, rfl, rfl, rfl, ?_⟩
  · simpa using lookupHost_eraseHost_self h st.client_map_
  · simp [runDeferred]

theorem onEvent_close_defers_witness :
    lookupHost hostA (onEvent stR hostA ConnectionEvent.RemoteClose).client_map_ = none ∧
    (onEvent stR hostA ConnectionEvent.RemoteClose).destroyed = stR.destroyed :=
  ⟨(onEvent_close_defers stR hostA { id := 0 } ConnectionEvent.RemoteClose
      (Or.inl rfl) (by decide)).1,
   (onEvent_close_defers stR hostA { id := 0 } ConnectionEvent.RemoteClose
      (Or.inl rfl) (by decide)).2.2.2.1⟩

/-- C3: a removal notification for the tracked group's name closes every
Active Connection (each observer firing once, recorded in
`closed_clients`), clears `cluster_`, the membership subscription and
`host_address_map_`, after which both request paths return null; a
removal for any other name leaves the state unchanged. -/
theorem onClusterRemoval_spec (st : PoolState) (name : String) (ext : Externals)
    (key addr : String) :
    (name = st.cluster_name_ →
      (onClusterRemoval st name).client_map_ = [] ∧
      (onClusterRemoval st name).cluster_ = none ∧
      (onClusterRemoval st name).host_set_member_update_cb_handle_ = false ∧
      (onClusterRemoval st name).host_address_map_ = [] ∧
      (KeysNodup st.client_map_ →
        (onClusterRemoval st name).closed_clients =
          st.closed_clients ++ st.client_map_.map (fun p => p.2.id)) ∧
      makeRequest ext (onClusterRemoval st name) key = (none, onClusterRemoval st name) ∧
      makeRequestToHost ext (onClusterRemoval st name) addr =
        (none, onClusterRemoval st name)) ∧
    (name ≠ st.cluster_name_ → onClusterRemoval st name = st) := by
  constructor
  · intro hname
    have h := onClusterRemoval_match st name hname
    refine ⟨h.2.2.2.1, h.1, h.2.1, h.2.2.1,
      fun hnd => (h.2.2.2.2.2.2.2.2.2.2 hnd).1, ?_, ?_⟩
    · exact makeRequest_no_cluster _ _ _ h.1
    · exact makeRequestToHost_no_cluster _ _ _ h.1
  · exact onClusterRemoval_nomatch st name

theorem onClusterRemoval_spec_witness :
    (onClusterRemoval stR "redis").client_map_ = [] ∧
    (onClusterRemoval stR "redis").cluster_ = none ∧
    (onClusterRemoval stR "redis").host_address_map_ = [] :=
  ⟨((onClusterRemoval_spec stR "redis" ext0 "k" "a").1 (by decide)).1,
   ((onClusterRemoval_spec stR "redis" ext0 "k" "a").1 (by decide)).2.1,
   ((onClusterRemoval_spec stR "redis" ext0 "k" "a").1 (by decide)).2.2.2.1⟩

/-- C6: both request paths return null when no group is tracked;
`makeRequest` additionally returns null when the load balancer selects no
backend for the effective hash key; otherwise `makeRequest` forwards the
request to the selected backend's connection and returns that
connection's handle. -/
theorem makeRequest_null_cases (ext : Externals) (st : PoolState) (key addr : String) :
    (st.cluster_ = none →
      makeRequest ext st key = (none, st) ∧ makeRequestToHost ext st addr = (none, st)) ∧
    (∀ g, st.cluster_ = some g →
      ext.chooseHost (hashtag key st.enable_hashtagging_) st.enable_hashtagging_ = none →
      makeRequest ext st key = (none, st)) ∧
    (∀ g h, st.cluster_ = some g →
      ext.chooseHost (hashtag key st.enable_hashtagging_) st.enable_hashtagging_ = some h →
      ∃ c, lookupHost h (makeRequest ext st key).2.client_map_ = some c ∧
        (makeRequest ext st key).1 = some c.id) := by
  refine ⟨fun hc => ⟨makeRequest_no_cluster _ _ _ hc,
    makeRequestToHost_no_cluster _ _ _ hc⟩, ?_, ?_⟩
  · intro g hcl hlb
    simp [makeRequest, hcl, hlb]
  · intro g h hcl hlb
    cases hg : lookupHost h st.client_map_ with
    | some c =>
      refine ⟨c, ?_, ?_⟩
      · have hmap : (makeRequest ext st key).2.client_map_ = st.client_map_ := by
          cases hls : lookupStr h.address st.host_address_map_ <;>
            simp [makeRequest, hcl, hlb, getOrCreateClient_found st h c hg, hls]
        rw [hmap]
        exact hg
      · cases hls : lookupStr h.address st.host_address_map_ <;>
          simp [makeRequest, hcl, hlb, getOrCreateClient_found st h c hg, hls]
    | none =>
      refine ⟨{ id := st.next_client_id }, ?_, ?_⟩
      · have hmap : (makeRequest ext st key).2.client_map_ =
            st.client_map_ ++ [(h, { id := st.next_client_id })] := by
          cases hls : lookupStr h.address st.host_address_map_ <;>
            simp [makeRequest, hcl, hlb, getOrCreateClient_missing st h hg, hls]
        rw [hmap]
        exact lookupHost_append_new h _ st.client_map_ hg
      · cases hls : lookupStr h.address st.host_address_map_ <;>
          simp [makeRequest, hcl, hlb, getOrCreateClient_missing st h hg, hls]

theorem makeRequest_null_cases_witness :
    makeRequest ext0 st0 "anykey" = (none, st0) :=
  ((makeRequest_null_cases ext0 st0 "anykey" "anyaddr").1 rfl).1

/-- C2: an add-or-update for the tracked group while a previous generation
is tracked first runs the full removal path — every pre-existing client's
close observer fires exactly once and the state is cleared — then records
the new group, registers the member-removal subscription and rebuilds
`host_address_map_` with one entry per backend of the new list keyed by
its address; a notification for a different group name changes nothing. -/
theorem onClusterAddOrUpdate_spec (st : PoolState) (g : Group)
    (hname : g.name = st.cluster_name_) (htr : st.cluster_.isSome)
    (hnd : KeysNodup st.client_map_)
    (haddr : (g.hosts.map Host.address).Nodup) :
    (onClusterAddOrUpdateNonVirtual st g).closed_clients =
      st.closed_clients ++ st.client_map_.map (fun p => p.2.id) ∧
    (∀ i, (onClusterAddOrUpdateNonVirtual st g).closed_clients.count i =
      st.closed_clients.count i + (st.client_map_.map (fun p => p.2.id)).count i) ∧
    (onClusterAddOrUpdateNonVirtual st g).cluster_ = some g ∧
    (onClusterAddOrUpdateNonVirtual st g).host_set_member_update_cb_handle_ = true ∧
    (onClusterAddOrUpdateNonVirtual st g).client_map_ = [] ∧
    (∀ h, h ∈ g.hosts →
      lookupStr h.address (onClusterAddOrUpdateNonVirtual st g).host_address_map_ =
        some h) ∧
    (∀ k v, lookupStr k (onClusterAddOrUpdateNonVirtual st g).host_address_map_ =
        some v → v ∈ g.hosts ∧ k = v.address) ∧
    (∀ g2 : Group, g2.name ≠ st.cluster_name_ →
      onClusterAddOrUpdateNonVirtual st g2 = st) := by
  have hne : ¬(g.name ≠ st.cluster_name_) := by simpa using hname
  have hif : st.cluster_.isSome = true := htr
  have hres : onClusterAddOrUpdateNonVirtual st g =
      { onClusterRemoval st st.cluster_name_ with
        cluster_ := some g
        host_set_member_update_cb_handle_ := true
        host_address_map_ := buildIndex g.hosts [] } := by
    simp [onClusterAddOrUpdateNonVirtual, hne, hif]
  have hrm := onClusterRemoval_match st st.cluster_name_ rfl
  have hclosed : (onClusterAddOrUpdateNonVirtual st g).closed_clients =
      st.closed_clients ++ st.client_map_.map (fun p => p.2.id) := by
    rw [hres]
    simpa using (hrm.2.2.2.2.2.2.2.2.2.2 hnd).1
  refine ⟨hclosed, ?_, ?_, ?_, ?_, ?_, ?_, ?_⟩
  · intro i
    rw [hclosed, List.count_append]
  · rw [hres]
  · rw [hres]
  · rw [hres]
    simpa using hrm.2.2.2.1
  · intro h hmem
    rw [hres]
    simpa using lookupStr_buildIndex_mem h g.hosts hmem haddr []
  · intro k v hlk
    rw [hres] at hlk
    have := lookupStr_buildIndex_some k v g.hosts [] (by simpa using hlk)
    rcases this with h1 | h2
    · exact h1
    · simp [lookupStr] at h2
  · intro g2 hg2
    simp [onClusterAddOrUpdateNonVirtual, hg2]

theorem onClusterAddOrUpdate_spec_witness :
    (onClusterAddOrUpdateNonVirtual stR g2).closed_clients =
      stR.closed_clients ++ stR.client_map_.map (fun p => p.2.id) ∧
    (onClusterAddOrUpdateNonVirtual stR g2).client_map_ = [] ∧
    (onClusterAddOrUpdateNonVirtual stR g2).cluster_ = some g2 :=
  ⟨(onClusterAddOrUpdate_spec stR g2 (by decide) (by decide) (by decide) (by decide)).1,
   (onClusterAddOrUpdate_spec stR g2 (by decide) (by decide) (by decide)
      (by decide)).2.2.2.2.1,
   (onClusterAddOrUpdate_spec stR g2 (by decide) (by decide) (by decide)
      (by decide)).2.2.1⟩

/-- C5: at most one live connection per backend — a request (load-balanced
or direct-by-address) whose backend already has a client in `client_map_`
reuses that client's connection and does not invoke the client factory. -/
theorem single_connection_per_backend (ext : Externals) (st : PoolState) :
    (∀ key g h c, st.cluster_ = some g →
      ext.chooseHost (hashtag key st.enable_hashtagging_) st.enable_hashtagging_ =
        some h →
      lookupHost h st.client_map_ = some c →
      (makeRequest ext st key).1 = some c.id ∧
      (makeRequest ext st key).2.client_map_ = st.client_map_ ∧
      (makeRequest ext st key).2.factory_calls = st.factory_calls) ∧
    (∀ addr pa hh c, st.cluster_.isSome →
      parseAddr ext addr = some pa →
      lookupStr pa.key st.host_address_map_ = some hh →
      lookupHost hh st.client_map_ = some c →
      makeRequestToHost ext st addr = (some c.id, st)) := by
  constructor
  · intro key g h c hcl hlb hg
    refine ⟨?_, ?_, ?_⟩ <;>
      cases hls : lookupStr h.address st.host_address_map_ <;>
        simp [makeRequest, hcl, hlb, getOrCreateClient_found st h c hg, hls]
  · intro addr pa hh c hcl hpa hls hg
    obtain ⟨g, hg2⟩ := Option.isSome_iff_exists.mp hcl
    simp [makeRequestToHost, hg2, hpa, hls, finishRequest,
      getOrCreateClient_found st hh c hg]

theorem single_connection_per_backend_witness :
    (makeRequest ext0 stR "\x7buser1000\x7d.xyz").1 = some 0 ∧
    (makeRequest ext0 stR "\x7buser1000\x7d.xyz").2.factory_calls =
      stR.factory_calls :=
  ⟨((single_connection_per_backend ext0 stR).1 "\x7buser1000\x7d.xyz" g1 hostA
      { id := 0 } (by decide) (by decide) (by decide)).1,
   ((single_connection_per_backend ext0 stR).1 "\x7buser1000\x7d.xyz" g1 hostA
      { id := 0 } (by decide) (by decide) (by decide)).2.2⟩

theorem onHostsRemoved_erases (hs : List Host) (st : PoolState) (h : Host)
    (hmem : h ∈ hs) :
    lookupHost h (onHostsRemoved st hs).client_map_ = none ∧
    lookupStr h.address (onHostsRemoved st hs).host_address_map_ = none := by
  induction hs generalizing st with
  | nil => simp at hmem
  | cons h0 tl ih =>
    rw [onHostsRemoved_cons]
    by_cases he : h = h0
    · subst he
      cases hlk : lookupHost h st.client_map_ with
      | none =>
        simp only [hlk]
        refine ⟨onHostsRemoved_client_none tl _ h (by simpa using hlk), ?_⟩
        refine onHostsRemoved_addr_none tl _ h.address ?_
        simpa using lookupStr_eraseStr_self h.address st.host_address_map_
      | some c =>
        simp only [hlk]
        rw [onEvent_close_found st h c ConnectionEvent.LocalClose (by simp) hlk]
        refine ⟨onHostsRemoved_client_none tl _ h ?_, onHostsRemoved_addr_none tl _ h.address ?_⟩
        · simpa using lookupHost_eraseHost_self h st.client_map_
        · simpa using lookupStr_eraseStr_self h.address st.host_address_map_
    · have hmem2 : h ∈ tl := by
        rcases List.mem_cons.mp hmem with h1 | h2
        · exact absurd h1 he
        · exact h2
      cases hlk : lookupHost h0 st.client_map_ with
      | none =>
        simp only [hlk]
        exact ih _ hmem2
      | some c =>
        simp only [hlk]
        rw [onEvent_close_found st h0 c ConnectionEvent.LocalClose (by simp) hlk]
        exact ih _ hmem2

theorem onHostsRemoved_closes (hs : List Host) (st : PoolState) (h : Host) (c : Client)
    (hmem : h ∈ hs) (hc : lookupHost h st.client_map_ = some c) :
    c.id ∈ (onHostsRemoved st hs).closed_clients := by
  induction hs generalizing st with
  | nil => simp at hmem
  | cons h0 tl ih =>
    rw [onHostsRemoved_cons]
    by_cases he : h = h0
    · subst he
      rw [hc]
      rw [onEvent_close_found st h c ConnectionEvent.LocalClose (by simp) hc]
      refine onHostsRemoved_closed_mono tl _ c.id ?_
      simp
    · have hmem2 : h ∈ tl := by
        rcases List.mem_cons.mp hmem with h1 | h2
        · exact absurd h1 he
        · exact h2
      cases hlk : lookupHost h0 st.client_map_ with
      | none =>
        simp only [hlk]
        exact ih _ hmem2 (by simpa using hc)
      | some c0 =>
        simp only [hlk]
        rw [onEvent_close_found st h0 c0 ConnectionEvent.LocalClose (by simp) hlk]
        refine ih _ hmem2 ?_
        have := lookupHost_eraseHost_ne h h0 st.client_map_ he
        simpa [this] using hc

theorem onHostsRemoved_noop (hs : List Host) (st : PoolState)
    (hnone : ∀ h, h ∈ hs → lookupHost h st.client_map_ = none) :
    (onHostsRemoved st hs).client_map_ = st.client_map_ ∧
    (onHostsRemoved st hs).closed_clients = st.closed_clients ∧
    (onHostsRemoved st hs).deferred_deletes = st.deferred_deletes := by
  induction hs generalizing st with
  | nil => simp [onHostsRemoved_nil]
  | cons h0 tl ih =>
    rw [onHostsRemoved_cons]
    have hlk : lookupHost h0 st.client_map_ = none :=
      hnone h0 (List.mem_cons_self _ _)
    simp only [hlk]
    have := ih { st with host_address_map_ := eraseStr h0.address st.host_address_map_ }
      (fun h hm => by simpa using hnone h (List.mem_cons_of_mem _ hm))
    simpa using this

/-- C9: for every backend handed to the host-removal callback, its Active
Connection (if any) is closed — firing the close observer and removing it
from `client_map_` — and its address entry is removed from
`host_address_map_`; backends without a connection make the close step a
no-op.  A subsequent direct-address request for such a backend therefore
misses `host_address_map_` and synthesizes a fresh pool-owned backend
(claim C8's creation path) instead of reusing a stale entry. -/
theorem onHostsRemoved_spec (st : PoolState) (hs : List Host) :
    (∀ h, h ∈ hs →
      lookupHost h (onHostsRemoved st hs).client_map_ = none ∧
      lookupStr h.address (onHostsRemoved st hs).host_address_map_ = none) ∧
    (∀ h c, h ∈ hs → lookupHost h st.client_map_ = some c →
      c.id ∈ (onHostsRemoved st hs).closed_clients) ∧
    ((∀ h, h ∈ hs → lookupHost h st.client_map_ = none) →
      (onHostsRemoved st hs).client_map_ = st.client_map_ ∧
      (onHostsRemoved st hs).closed_clients = st.closed_clients ∧
      (onHostsRemoved st hs).deferred_deletes = st.deferred_deletes) :=
  ⟨fun h hm => onHostsRemoved_erases hs st h hm,
   fun h c hm hc => onHostsRemoved_closes hs st h c hm hc,
   fun hn => onHostsRemoved_noop hs st hn⟩

theorem onHostsRemoved_spec_witness :
    lookupHost hostA (onHostsRemoved stR [hostA]).client_map_ = none ∧
    lookupStr hostA.address (onHostsRemoved stR [hostA]).host_address_map_ = none ∧
    0 ∈ (onHostsRemoved stR [hostA]).closed_clients :=
  ⟨((onHostsRemoved_spec stR [hostA]).1 hostA (by decide)).1,
   ((onHostsRemoved_spec stR [hostA]).1 hostA (by decide)).2,
   (onHostsRemoved_spec stR [hostA]).2.1 hostA { id := 0 } (by decide) (by decide)⟩

/-- C7: while a group is tracked, `makeRequestToHost` returns null with the
state unchanged whenever the address has no colon, nothing follows the
last colon, the port fails to parse or exceeds 65535, or constructing the
network address fails.  For the IPv4-shaped cases that are only checked
after the `host_address_map_` lookup, the input string is assumed absent
from the map, which holds in every reachable state because map keys come
from well-formed host addresses or previously validated inputs. -/
theorem makeRequestToHost_malformed (ext : Externals) (st : PoolState)
    (addr : String) (hcl : st.cluster_.isSome)
    (hbad :
      colonChar ∉ addr.data ∨
      (∃ i, lastIdxOf addr.data colonChar = some i ∧ i + 1 = addr.data.length) ∨
      (∃ i, lastIdxOf addr.data colonChar = some i ∧ i + 1 < addr.data.length ∧
        (simpleAtoi (String.mk (addr.data.drop (i + 1))) = none ∨
         ∃ p, simpleAtoi (String.mk (addr.data.drop (i + 1))) = some p ∧ 65535 < p) ∧
        ((addr.data.take i).contains colonChar = false →
          lookupStr addr st.host_address_map_ = none)) ∨
      (∃ i p, lastIdxOf addr.data colonChar = some i ∧ i + 1 < addr.data.length ∧
        simpleAtoi (String.mk (addr.data.drop (i + 1))) = some p ∧ p ≤ 65535 ∧
        (((addr.data.take i).contains colonChar = true ∧
            ext.mkIpv6 (String.mk (addr.data.take i)) p = none) ∨
         ((addr.data.take i).contains colonChar = false ∧
            ext.mkIpv4 (String.mk (addr.data.take i)) p = none ∧
            lookupStr addr st.host_address_map_ = none)))) :
    makeRequestToHost ext st addr = (none, st) := by
  obtain ⟨g, hg2⟩ := Option.isSome_iff_exists.mp hcl
  rcases hbad with hA | hB | hC | hD
  · have hli : lastIdxOf addr.data colonChar = none :=
      (lastIdxOf_eq_none_iff _ _).mpr hA
    simp [makeRequestToHost, hg2, parseAddr, hli]
  · obtain ⟨i, hli, hip⟩ := hB
    have hilen : i < addr.data.length := lastIdxOf_lt_length _ _ _ hli
    have hlast : i = addr.data.length - 1 := by omega
    simp [makeRequestToHost, hg2, parseAddr, hli, hlast]
  · obtain ⟨i, hli, hlen2, hport, hmap⟩ := hC
    have hilen : i < addr.data.length := lastIdxOf_lt_length _ _ _ hli
    have hine : ¬(i = addr.data.length - 1) := by omega
    have hineL : ¬(i = addr.length - 1) := hine
    cases hv6 : (addr.data.take i).contains colonChar with
    | true =>
      have hv6m : colonChar ∈ List.take i addr.data := by simpa using hv6
      rcases hport with hp0 | ⟨p, hp1, hp2⟩
      · simp [makeRequestToHost, hg2, parseAddr, hli, hine, hineL, hv6m, hp0]
      · simp [makeRequestToHost, hg2, parseAddr, hli, hine, hineL, hv6m, hp1, hp2]
    | false =>
      have hv6m : colonChar ∉ List.take i addr.data := by simpa using hv6
      have hm := hmap hv6
      rcases hport with hp0 | ⟨p, hp1, hp2⟩
      · simp [makeRequestToHost, hg2, parseAddr, hli, hine, hineL, hv6m, ParsedAddr.key,
          hm, synthAddrStr, hp0]
      · simp [makeRequestToHost, hg2, parseAddr, hli, hine, hineL, hv6m, ParsedAddr.key,
          hm, synthAddrStr, hp1, hp2]
  · obtain ⟨i, p, hli, hlen2, hp1, hp2, hrest⟩ := hD
    have hilen : i < addr.data.length := lastIdxOf_lt_length _ _ _ hli
    have hine : ¬(i = addr.data.length - 1) := by omega
    have hineL : ¬(i = addr.length - 1) := hine
    have hple : ¬(65535 < p) := by omega
    rcases hrest with ⟨hv6, hmk⟩ | ⟨hv4, hmk, hm⟩
    · have hv6m : colonChar ∈ List.take i addr.data := by simpa using hv6
      simp [makeRequestToHost, hg2, parseAddr, hli, hine, hineL, hv6m, hp1, hple, hmk]
    · have hv6m : colonChar ∉ List.take i addr.data := by simpa using hv4
      simp [makeRequestToHost, hg2, parseAddr, hli, hine, hineL, hv6m, ParsedAddr.key,
        hm, synthAddrStr, hp1, hple, hmk]

theorem makeRequestToHost_malformed_witness :
    makeRequestToHost ext0 stC "badhost" = (none, stC) :=
  makeRequestToHost_malformed ext0 stC "badhost" (by decide)
    (Or.inl (by decide))

/-- C8: a well-formed address whose map key misses `host_address_map_`
makes `makeRequestToHost` synthesize a pool-owned backend with weight 1,
health UNKNOWN and no metadata, insert it under that key (the raw input
string for IPv4 inputs, the constructed address's `asString()` for IPv6),
and create a connection for it; a second call with the identical string
finds the entry and reuses the same connection without another factory
invocation. -/
theorem makeRequestToHost_synthesizes (ext : Externals) (st : PoolState)
    (addr : String) (pa : ParsedAddr) (addrStr : String)
    (hcl : st.cluster_.isSome)
    (hpa : parseAddr ext addr = some pa)
    (habs : lookupStr pa.key st.host_address_map_ = none)
    (hsyn : synthAddrStr ext pa = some addrStr)
    (hfresh : lookupHost (mkSyntheticHost st.next_host_id addrStr)
      st.client_map_ = none) :
    (makeRequestToHost ext st addr).1 = some st.next_client_id ∧
    lookupStr pa.key (makeRequestToHost ext st addr).2.host_address_map_ =
      some (mkSyntheticHost st.next_host_id addrStr) ∧
    (mkSyntheticHost st.next_host_id addrStr).weight = 1 ∧
    (mkSyntheticHost st.next_host_id addrStr).health = HealthStatus.Unknown ∧
    (mkSyntheticHost st.next_host_id addrStr).hasMetadata = false ∧
    (makeRequestToHost ext st addr).2.factory_calls = st.factory_calls + 1 ∧
    makeRequestToHost ext (makeRequestToHost ext st addr).2 addr =
      (some st.next_client_id, (makeRequestToHost ext st addr).2) := by
  obtain ⟨g, hg2⟩ := Option.isSome_iff_exists.mp hcl
  have hrun : makeRequestToHost ext st addr =
      (some st.next_client_id,
       { st with
         host_address_map_ :=
           insertStr pa.key (mkSyntheticHost st.next_host_id addrStr)
             st.host_address_map_
         next_host_id := st.next_host_id + 1
         client_map_ := st.client_map_ ++
           [(mkSyntheticHost st.next_host_id addrStr, { id := st.next_client_id })]
         next_client_id := st.next_client_id + 1
         factory_calls := st.factory_calls + 1 }) := by
    simp [makeRequestToHost, hg2, hpa, habs, hsyn, finishRequest,
      getOrCreateClient, hfresh]
  refine ⟨by rw [hrun], ?_, rfl, rfl, rfl, by rw [hrun], ?_⟩
  · rw [hrun]
    simp [lookupStr_insertStr]
  · rw [hrun]
    have hlk2 : lookupHost (mkSyntheticHost st.next_host_id addrStr)
        (st.client_map_ ++
          [(mkSyntheticHost st.next_host_id addrStr, { id := st.next_client_id })]) =
        some { id := st.next_client_id } :=
      lookupHost_append_new _ _ _ hfresh
    simp [makeRequestToHost, hg2, hpa, lookupStr_insertStr, finishRequest,
      getOrCreateClient, hlk2]

theorem makeRequestToHost_synthesizes_witness :
    (makeRequestToHost ext0 stC "10.0.0.9:6379").1 = some stC.next_client_id ∧
    lookupStr "10.0.0.9:6379"
      (makeRequestToHost ext0 stC "10.0.0.9:6379").2.host_address_map_ =
      some (mkSyntheticHost stC.next_host_id "10.0.0.9:6379") ∧
    makeRequestToHost ext0 (makeRequestToHost ext0 stC "10.0.0.9:6379").2
      "10.0.0.9:6379" =
      (some stC.next_client_id, (makeRequestToHost ext0 stC "10.0.0.9:6379").2) :=
  ⟨(makeRequestToHost_synthesizes ext0 stC "10.0.0.9:6379"
      (ParsedAddr.v4 "10.0.0.9:6379" "10.0.0.9" "6379") "10.0.0.9:6379"
      (by decide) (by decide) (by decide) (by decide) (by decide)).1,
   (makeRequestToHost_synthesizes ext0 stC "10.0.0.9:6379"
      (ParsedAddr.v4 "10.0.0.9:6379" "10.0.0.9" "6379") "10.0.0.9:6379"
      (by decide) (by decide) (by decide) (by decide) (by decide)).2.1,
   (makeRequestToHost_synthesizes ext0 stC "10.0.0.9:6379"
      (ParsedAddr.v4 "10.0.0.9:6379" "10.0.0.9" "6379") "10.0.0.9:6379"
      (by decide) (by decide) (by decide) (by decide) (by decide)).2.2.2.2.2.2⟩

end RedisConnPool
